import Mathlib

/-!
# PlexWatchParty — verification of the Orchestrator and fan-out layer

Shallow embedding of the server's session orchestration code
(`server/orchestrator.py`, `server/websocket_manager.py`,
`server/models.py`, `shared/models.py`).

Modelling conventions:
* Wall-clock timestamps (`datetime.now(timezone.utc)`) are integers in
  milliseconds (`Int`).  All arithmetic in the source converts datetime
  differences to integer milliseconds via
  `int((a - b).total_seconds() * 1000)`, which is exact on
  millisecond-granularity timestamps, so subtraction on `Int` is a faithful
  translation.
* Python dicts keyed by username become association lists
  (`List (String × Participant)`), with insertion-order iteration and
  in-place overwrite, exactly as CPython dicts behave.
* Each `async` method is translated as a pure function of the state it
  reads plus one `now` parameter; the commands the method hands to the
  websocket layer are returned as a list of `(recipient, command)` pairs,
  in the order the source builds its `cmd_map`.
* Fallible methods return `Except OrchError`; `KeyError("session not
  found")` is `OrchError.NotFound`, the `ValueError` for a future
  scheduled start is `OrchError.InvalidState`, and the `ValueError` for an
  unauthorized device is `OrchError.NotAuthorized`.
-/

/-- `shared/models.py` `CommandType`. -/
inductive CommandType where
  | PLAY
  | PAUSE
  | SEEK
  | STOP
  | SYNC
deriving DecidableEq, Repr

/-- `shared/models.py` `Device {title, id}`. -/
structure Device where
  title : String
  id : String
deriving DecidableEq, Repr

/-- `shared/models.py` `WSCommand {type, offset?, filename, device}`;
`offset` is integer milliseconds or `None`. -/
structure WSCommand where
  type : CommandType
  offset : Option Int
  filename : String
  device : Device
deriving DecidableEq, Repr

/-- `server/models.py` `PauseInterval {start, end?}` (timestamps in ms). -/
structure PauseInterval where
  start : Int
  «end» : Option Int
deriving DecidableEq, Repr

/-- `server/models.py` `Participant {username, device, join_time, offset}`. -/
structure Participant where
  username : String
  device : Device
  join_time : Int
  offset : Int
deriving DecidableEq, Repr

/-- `server/models.py` `Session`.  The runtime-only `asyncio.Task` handles
(`start_task`, `pause_task`, `resume_task`) and the unused `catchup_queue`
carry no session-state semantics and are omitted; `participants` is the
dict `username → Participant` as an insertion-ordered association list. -/
structure Session where
  session_id : String
  filename : String
  duration_ms : Int
  scheduled_start_time : Int
  start_time : Option Int
  pause_intervals : List PauseInterval
  participants : List (String × Participant)
  prequeue : List String
deriving DecidableEq, Repr

/-- Error taxonomy of the orchestrator's synchronous failure paths. -/
inductive OrchError where
  | NotFound
  | InvalidState
  | NotAuthorized
deriving DecidableEq, Repr

/-- Python `username in session.participants` / `.get(username)` on the
insertion-ordered dict. -/
def lookupP (username : String) : List (String × Participant) → Option Participant
  | [] => none
  | (k, v) :: rest => if k = username then some v else lookupP username rest

/-- CPython dict overwrite: replacing the value of an existing key keeps
its position; a new key is appended. -/
def insertP (username : String) (p : Participant) :
    List (String × Participant) → List (String × Participant)
  | [] => [(username, p)]
  | (k, v) :: rest =>
      if k = username then (username, p) :: rest else (k, v) :: insertP username p rest

/-- `Orchestrator._calculate_offset(session, current_time)`: 0 before
`start_time` is set; otherwise elapsed wall-clock milliseconds minus the
total paused milliseconds (an open interval counts up to `current_time`),
clamped at 0. -/
def calculate_offset (session : Session) (current_time : Int) : Int :=
  match session.start_time with
  | none => 0
  | some st =>
      let elapsed_ms := current_time - st
      let paused_ms := session.pause_intervals.foldl
        (fun acc p =>
          match p.«end» with
          | some e => acc + (e - p.start)
          | none => acc + (current_time - p.start)) 0
      max 0 (elapsed_ms - paused_ms)

/-- Milliseconds a single pause interval contributes at time `t`:
`(interval.end or t) − interval.start`. -/
def pauseLen (t : Int) (p : PauseInterval) : Int :=
  (p.«end».getD t) - p.start

/-- `60 * 60 * 1000` (`HOUR_MS` in `_schedule_next_pause`). -/
def HOUR_MS : Int := 60 * 60 * 1000

/-- `30 * 60 * 1000` (`THIRTY_MIN_MS` in `_schedule_next_pause`). -/
def THIRTY_MIN_MS : Int := 30 * 60 * 1000

/-- The "don't schedule while paused" test of `_schedule_next_pause`:
`session.pause_intervals and session.pause_intervals[-1].end is None`. -/
def isPausedNow (session : Session) : Bool :=
  match session.pause_intervals.getLast? with
  | some last => last.«end».isNone
  | none => false

/-- `Orchestrator._schedule_next_pause`, as the scheduling decision it
computes under the lock: `none` when no pause task is armed, `some d` when
a task is armed with delay `d` milliseconds (the source sleeps
`d / 1000.0` seconds, an exact rescaling).  `elapsed_ms ≥ 0` always, so
Lean's `Int` division agrees with Python's floor division `//` here. -/
def schedule_next_pause (session : Session) (t : Int) : Option Int :=
  if isPausedNow session then none
  else
    let elapsed_ms := calculate_offset session t
    let next_k := elapsed_ms / HOUR_MS + 1
    let next_target_ms := next_k * HOUR_MS
    let should_schedule :=
      if next_k = 1 then true
      else decide (session.duration_ms - next_target_ms > THIRTY_MIN_MS)
    if should_schedule then some (max 0 (next_target_ms - elapsed_ms)) else none

/-- `Orchestrator.start_session`, per-session body (the `KeyError` lookup
failure lives in `orch_start_session` below).  Returns the updated session
and the `(recipient, PLAY offset-0)` commands handed to
`ws.broadcast_many`, in the order the source builds `cmd_map` from
`participant_devices`. -/
def start_session (session : Session) (t : Int) :
    Except OrchError (Session × List (String × WSCommand)) :=
  if session.start_time.isSome then
    Except.ok (session, [])
  else if session.scheduled_start_time > t then
    Except.error OrchError.InvalidState
  else
    let prequeue_users := session.prequeue
    let session' := { session with start_time := some t, prequeue := [] }
    let cmds := (session.participants.filter fun up => prequeue_users.contains up.1).map
      fun up => (up.1, WSCommand.mk CommandType.PLAY (some 0) session.filename up.2.device)
    Except.ok (session', cmds)

/-- Python `self._sessions.get(session_id)` on the registry dict. -/
def lookupSession (session_id : String) : List (String × Session) → Option Session
  | [] => none
  | (k, v) :: rest => if k = session_id then some v else lookupSession session_id rest

/-- In-place mutation of the session stored under `session_id`. -/
def updateSession (session_id : String) (s : Session) :
    List (String × Session) → List (String × Session)
  | [] => []
  | (k, v) :: rest =>
      if k = session_id then (k, s) :: rest else (k, v) :: updateSession session_id s rest

/-- `Orchestrator.start_session` at the registry level: `KeyError`
(`NotFound`) when the id is absent, otherwise the per-session body. -/
def orch_start_session (sessions : List (String × Session)) (session_id : String) (t : Int) :
    Except OrchError (List (String × Session) × List (String × WSCommand)) :=
  match lookupSession session_id sessions with
  | none => Except.error OrchError.NotFound
  | some s =>
      match start_session s t with
      | Except.error e => Except.error e
      | Except.ok (s', cmds) => Except.ok (updateSession session_id s' sessions, cmds)

/-- `Orchestrator.add_participant`, per-session body.  `authorized_clients`
is the list returned by `ws.get_authorized_clients(username)`; the device
is matched by title, the participant stored (overwriting), and either one
catch-up PLAY is sent (session started) or the username is idempotently
appended to the prequeue (not started). -/
def add_participant (session : Session) (username client_name : String)
    (authorized_clients : List Device) (t : Int) :
    Except OrchError (Session × List (String × WSCommand)) :=
  match authorized_clients.find? (fun device => device.title == client_name) with
  | none => Except.error OrchError.NotAuthorized
  | some device_obj =>
      let participant : Participant :=
        { username := username, device := device_obj, join_time := t, offset := 0 }
      let session1 :=
        { session with participants := insertP username participant session.participants }
      match session1.start_time with
      | some _ =>
          let offset := calculate_offset session1 t
          Except.ok (session1,
            [(username, WSCommand.mk CommandType.PLAY (some offset) session1.filename
                participant.device)])
      | none =>
          if session1.prequeue.contains username then Except.ok (session1, [])
          else Except.ok ({ session1 with prequeue := session1.prequeue ++ [username] }, [])

/-- `Orchestrator.pause_session`, per-session body: unconditionally appends
an open `PauseInterval` and builds one PAUSE (offset `None`) per stored
participant. -/
def pause_session (session : Session) (t : Int) : Session × List (String × WSCommand) :=
  let session' :=
    { session with pause_intervals := session.pause_intervals ++ [PauseInterval.mk t none] }
  let cmds := session'.participants.map fun up =>
    (up.1, WSCommand.mk CommandType.PAUSE none session'.filename up.2.device)
  (session', cmds)

/-- `Orchestrator.resume_session`, per-session body: no-op when the
interval list is empty or its last interval is already closed; otherwise
closes the last interval at `t`, computes the offset on the updated
session, and builds one PLAY carrying that offset per participant. -/
def resume_session (session : Session) (t : Int) : Session × List (String × WSCommand) :=
  match session.pause_intervals.getLast? with
  | none => (session, [])
  | some last =>
      if last.«end».isSome then (session, [])
      else
        let session' := { session with
          pause_intervals :=
            session.pause_intervals.dropLast ++ [PauseInterval.mk last.start (some t)] }
        let server_offset := calculate_offset session' t
        let cmds := session'.participants.map fun up =>
          (up.1, WSCommand.mk CommandType.PLAY (some server_offset) session'.filename
            up.2.device)
        (session', cmds)

/-- `Orchestrator.handle_client_status_update`: over the session snapshot,
for each session matching the filename in which `username` participates,
compare the transit-adjusted reported offset against the server offset and
emit one SEEK to that user when the gap exceeds `threshold_ms`.  Returns
the `adjusted_offset` the source returns, plus every command sent.
`status_step` is the loop body, one session at a time. -/
def status_step (user filename : String) (offset receive_time t threshold_ms : Int)
    (acc : Option Int × List (String × WSCommand)) (session : Session) :
    Option Int × List (String × WSCommand) :=
  if session.filename ≠ filename then acc
  else if (lookupP user session.participants).isNone then acc
  else
    let server_offset := calculate_offset session t
    let delta_ms := t - receive_time
    let adjusted_offset := offset + delta_ms
    let cmds :=
      if |adjusted_offset - server_offset| > threshold_ms then
        match lookupP user session.participants with
        | none => []
        | some participant =>
            [(user, WSCommand.mk CommandType.SEEK (some server_offset)
                session.filename participant.device)]
      else []
    (some adjusted_offset, acc.2 ++ cmds)

def handle_client_status_update (sessions : List Session) (username : Option String)
    (filename : String) (offset : Int) (receive_time : Int) (t : Int) (threshold_ms : Int) :
    Option Int × List (String × WSCommand) :=
  match username with
  | none => (none, [])
  | some user =>
      sessions.foldl (status_step user filename offset receive_time t threshold_ms) (none, [])

/-- A concrete device, used by the concrete instances below. -/
def exDevice : Device := { title := "TV", id := "dev-1" }

/-- A concrete participant. -/
def exParticipant : Participant :=
  { username := "alice", device := exDevice, join_time := 0, offset := 0 }

/-- A concrete started session with one participant and no pauses. -/
def exSession : Session :=
  { session_id := "sid-1", filename := "movie.mkv", duration_ms := 3600000,
    scheduled_start_time := 0, start_time := some 0, pause_intervals := [],
    participants := [("alice", exParticipant)], prequeue := [] }

/-- `exSession` with one open pause interval. -/
def exPausedSession : Session := { exSession with pause_intervals := [⟨1000, none⟩] }

/-- `exSession` not yet started, with `"alice"` prequeued. -/
def exNotStarted : Session := { exSession with start_time := none, prequeue := ["alice"] }

/-- A Python value as it can appear under a key of a duck-typed
"authorized client" dict entry: a string, an integer, or `None`. -/
inductive PyVal where
  | str (s : String)
  | int (n : Int)
  | noneV
deriving DecidableEq, Repr

/-- Python truthiness of a `PyVal` (`if not title or not device_id`). -/
def PyVal.truthy : PyVal → Bool
  | .str s => !(s == "")
  | .int n => !(n == 0)
  | .noneV => false

/-- `dict.get(key)` on a Python dict modelled as a keyed list: the value
when present, else `None`. -/
def dictGet (entries : List (String × PyVal)) (key : String) : PyVal :=
  match entries.find? (fun kv => kv.1 == key) with
  | some kv => kv.2
  | none => PyVal.noneV

/-- `Device.model_validate(d)`: pydantic v2 accepts the dict exactly when
both required fields are present as strings (numbers are not coerced to
`str`; extra keys are ignored); on success it builds the `Device` from
them. -/
def model_validate_device (entries : List (String × PyVal)) : Option Device :=
  match dictGet entries "title", dictGet entries "id" with
  | PyVal.str title, PyVal.str device_id => some (Device.mk title device_id)
  | _, _ => none

/-- One element of the loosely-typed list passed to
`Connection.set_authorized_clients`: an actual `Device`, a dict, or
anything else. -/
inductive RawClient where
  | device (d : Device)
  | dict (entries : List (String × PyVal))
  | other
deriving DecidableEq, Repr

/-- `Connection.set_authorized_clients`: normalize the input list, keeping
`Device` instances whose `title` and `id` are truthy, and dict entries
with truthy `title`/`id` values that validate as a `Device`; everything
else (including validation failures) is skipped.  An empty input stores
`[]`, which the normalization loop also yields. -/
def normalize_step (normalized : List Device) (c : RawClient) : List Device :=
  match c with
  | RawClient.device d =>
      if !(d.title == "") && !(d.id == "") then normalized ++ [d] else normalized
  | RawClient.dict entries =>
      let title := dictGet entries "title"
      let device_id := dictGet entries "id"
      if !title.truthy || !device_id.truthy then normalized
      else
        match model_validate_device entries with
        | some d => normalized ++ [d]
        | none => normalized
  | RawClient.other => normalized

def set_authorized_clients (clients : List RawClient) : List Device :=
  clients.foldl normalize_step []

/-- The spec's description of a kept entry, written from its words: an
entry "that carries both a non-empty title and a non-empty id (as Device
values)" — a `Device` with non-empty fields, or a dict whose `title` and
`id` are non-empty strings. -/
def specKeepClient : RawClient → Option Device
  | RawClient.device d => if d.title ≠ "" ∧ d.id ≠ "" then some d else none
  | RawClient.dict entries =>
      match dictGet entries "title", dictGet entries "id" with
      | PyVal.str title, PyVal.str device_id =>
          if title ≠ "" ∧ device_id ≠ "" then some (Device.mk title device_id) else none
      | _, _ => none
  | RawClient.other => none

/-- One mutating orchestrator operation applied to a session, with the
wall-clock instant at which it runs and, for `add`, the device list the
external collaborator returned. -/
inductive Op where
  | start (t : Int)
  | pause (t : Int)
  | resume (t : Int)
  | add (username client_name : String) (clients : List Device) (t : Int)
deriving DecidableEq, Repr

/-- The session state after one operation; failing operations mutate
nothing (their errors surface before any write). -/
def applyOp (session : Session) : Op → Session
  | Op.start t =>
      match start_session session t with
      | Except.ok (s', _) => s'
      | Except.error _ => session
  | Op.pause t => (pause_session session t).1
  | Op.resume t => (resume_session session t).1
  | Op.add u c clients t =>
      match add_participant session u c clients t with
      | Except.ok (s', _) => s'
      | Except.error _ => session

/-- A whole sequence of operations, first to last. -/
def applyOps (session : Session) (ops : List Op) : Session :=
  ops.foldl applyOp session

/-- Number of open (`end` unset) pause intervals of a session. -/
def openCount (session : Session) : Nat :=
  (session.pause_intervals.filter fun p => p.«end».isNone).length

/-- The call discipline the orchestrator's scheduler obeys: a pause is
only ever fired while the session has no open interval
(`_schedule_next_pause` refuses to arm one while paused). -/
def disciplined (session : Session) : List Op → Bool
  | [] => true
  | op :: rest =>
      (match op with
       | Op.pause _ => openCount session == 0
       | _ => true) && disciplined (applyOp session op) rest

theorem foldl_paused_eq_sum (t : Int) (l : List PauseInterval) (a : Int) :
    l.foldl (fun acc p =>
      match p.«end» with
      | some e => acc + (e - p.start)
      | none => acc + (t - p.start)) a = a + (l.map (pauseLen t)).sum := by
  induction l generalizing a with
  | nil => simp
  | cons p rest ih =>
      cases h : p.«end» with
      | none =>
          simp only [List.foldl_cons, List.map_cons, List.sum_cons, h, pauseLen, Option.getD]
          rw [ih]; ring
      | some e =>
          simp only [List.foldl_cons, List.map_cons, List.sum_cons, h, pauseLen, Option.getD]
          rw [ih]; ring

/-- C1: `calculate_offset` is 0 when `start_time` is unset, and otherwise
equals `(t − start_time)` minus the sum over all pause intervals of
`(interval.end or t) − interval.start`, clamped to be ≥ 0, in integer
milliseconds. -/
theorem calculate_offset_spec (s : Session) (t : Int) :
    calculate_offset s t =
      match s.start_time with
      | none => 0
      | some st => max 0 ((t - st) - (s.pause_intervals.map (pauseLen t)).sum) := by
  cases h : s.start_time with
  | none => simp [calculate_offset, h]
  | some st => simp [calculate_offset, h, foldl_paused_eq_sum]

/-- C10: `pause_session` has no started-session precondition: for every
session — in particular one whose `start_time` is unset — it succeeds,
appends one open `PauseInterval`, and builds one PAUSE with `offset =
none` per stored participant; and while `start_time` is unset the
computed offset is 0 at every time, pause intervals notwithstanding. -/
theorem pause_session_before_start (s : Session) (t : Int) :
    (pause_session s t).1 =
        { s with pause_intervals := s.pause_intervals ++ [PauseInterval.mk t none] }
    ∧ (pause_session s t).2 = s.participants.map (fun up =>
        (up.1, WSCommand.mk CommandType.PAUSE none s.filename up.2.device))
    ∧ (s.start_time = none → ∀ u : Int, calculate_offset s u = 0 ∧
        calculate_offset (pause_session s t).1 u = 0) := by
  refine ⟨rfl, rfl, fun h u => ⟨?_, ?_⟩⟩
  · simp [calculate_offset, h]
  · simp [calculate_offset, pause_session, h]

/-- Witness for `pause_session_before_start` at a concrete unstarted
session. -/
theorem pause_session_before_start_witness :
    calculate_offset exNotStarted 5 = 0 ∧
      calculate_offset (pause_session exNotStarted 3).1 5 = 0 :=
  (pause_session_before_start exNotStarted 3).2.2 rfl 5

/-- C8: `resume_session` is a no-op with zero broadcasts when the interval
list is empty or its last interval already has an end; otherwise it closes
exactly that open last interval at `t`, leaves every earlier interval
untouched, and sends one PLAY carrying the offset computed on the updated
session to every participant. -/
theorem resume_session_spec (s : Session) (t : Int) :
    (s.pause_intervals = [] → resume_session s t = (s, []))
    ∧ (∀ last e, s.pause_intervals.getLast? = some last → last.«end» = some e →
        resume_session s t = (s, []))
    ∧ (∀ last, s.pause_intervals.getLast? = some last → last.«end» = none →
        resume_session s t =
          (let s' := { s with pause_intervals :=
              s.pause_intervals.dropLast ++ [PauseInterval.mk last.start (some t)] }
           (s', s.participants.map fun up =>
              (up.1, WSCommand.mk CommandType.PLAY (some (calculate_offset s' t))
                s.filename up.2.device)))) := by
  refine ⟨fun h => ?_, fun last e hl he => ?_, fun last hl he => ?_⟩
  · simp [resume_session, h]
  · simp [resume_session, hl, he]
  · simp [resume_session, hl, he]

/-- Witness for `resume_session_spec`: the empty-history no-op and a
concrete resume that closes the open interval and replays at the computed
offset. -/
theorem resume_session_spec_witness :
    resume_session exSession 5 = (exSession, [])
    ∧ resume_session exPausedSession 9000 =
        ({ exPausedSession with pause_intervals := [PauseInterval.mk 1000 (some 9000)] },
          [("alice", WSCommand.mk CommandType.PLAY (some 1000) "movie.mkv" exDevice)]) :=
  ⟨(resume_session_spec exSession 5).1 rfl,
   Eq.trans ((resume_session_spec exPausedSession 9000).2.2 (PauseInterval.mk 1000 none)
     rfl rfl) (by decide)⟩

theorem openCount_pause (s : Session) (t : Int) :
    openCount (pause_session s t).1 = openCount s + 1 := by
  simp [openCount, pause_session, List.filter_append]

theorem openCount_resume_le (s : Session) (t : Int) :
    openCount (resume_session s t).1 ≤ openCount s := by
  cases hl : s.pause_intervals.getLast? with
  | none => simp [resume_session, hl]
  | some last =>
      cases he : last.«end» with
      | some e => simp [resume_session, hl, he]
      | none =>
          have hsplit : s.pause_intervals.dropLast ++ [last] = s.pause_intervals :=
            List.dropLast_append_getLast? last hl
          have hcount : openCount s = openCount ⟨s.session_id, s.filename, s.duration_ms,
              s.scheduled_start_time, s.start_time, s.pause_intervals.dropLast ++ [last],
              s.participants, s.prequeue⟩ := by
            simp [openCount, hsplit]
          rw [hcount]
          simp [resume_session, hl, he, openCount, List.filter_append]

theorem pause_intervals_start_session (s : Session) (t : Int) :
    (applyOp s (Op.start t)).pause_intervals = s.pause_intervals := by
  by_cases h1 : s.start_time.isSome
  · simp [applyOp, start_session, h1]
  · by_cases h2 : s.scheduled_start_time > t
    · simp [applyOp, start_session, h1, h2]
    · simp [applyOp, start_session, h1, h2]

theorem pause_intervals_add_participant (s : Session) (u c : String)
    (clients : List Device) (t : Int) :
    (applyOp s (Op.add u c clients t)).pause_intervals = s.pause_intervals := by
  cases hf : clients.find? (fun device => device.title == c) with
  | none => simp [applyOp, add_participant, hf]
  | some d =>
      cases hst : s.start_time with
      | some st => simp [applyOp, add_participant, hf, hst]
      | none =>
          by_cases hq : u ∈ s.prequeue
          · simp [applyOp, add_participant, hf, hst, hq]
          · simp [applyOp, add_participant, hf, hst, hq]

/-- C5 counterexample: `pause_session` appends an open interval
unconditionally, so two consecutive pauses — a sequence of orchestrator
operations — leave two open intervals in the list at once. -/
theorem pause_twice_two_open :
    ¬ (openCount (applyOps exSession [Op.pause 1, Op.pause 2]) ≤ 1) := by decide

/-- C5 (amended): along any operation sequence in which `pause_session` is
only invoked while the session has no open interval — the discipline the
scheduler enforces by never arming a pause while paused — a session with
at most one open interval keeps at most one open interval. -/
theorem openCount_le_one_of_disciplined (s : Session) (ops : List Op)
    (h0 : openCount s ≤ 1) (hd : disciplined s ops = true) :
    openCount (applyOps s ops) ≤ 1 := by
  induction ops generalizing s with
  | nil => simpa [applyOps] using h0
  | cons op rest ih =>
      have happ : applyOps s (op :: rest) = applyOps (applyOp s op) rest := by
        simp [applyOps]
      rw [happ]
      cases op with
      | start t =>
          simp only [disciplined, Bool.and_eq_true, true_and] at hd
          refine ih _ ?_ hd
          rw [show openCount (applyOp s (Op.start t)) =
            ((applyOp s (Op.start t)).pause_intervals.filter fun p => p.«end».isNone).length
            from rfl, pause_intervals_start_session]
          exact h0
      | pause t =>
          simp only [disciplined, Bool.and_eq_true] at hd
          have h00 : openCount s = 0 := by simpa using hd.1
          refine ih _ ?_ hd.2
          have hstep : openCount (applyOp s (Op.pause t)) = openCount s + 1 :=
            openCount_pause s t
          omega
      | resume t =>
          simp only [disciplined, Bool.and_eq_true, true_and] at hd
          exact ih _ (le_trans (openCount_resume_le s t) h0) hd
      | add u c clients t =>
          simp only [disciplined, Bool.and_eq_true, true_and] at hd
          refine ih _ ?_ hd
          rw [show openCount (applyOp s (Op.add u c clients t)) =
            ((applyOp s (Op.add u c clients t)).pause_intervals.filter
              fun p => p.«end».isNone).length
            from rfl, pause_intervals_add_participant]
          exact h0

/-- Witness for `openCount_le_one_of_disciplined` on a concrete
pause/resume/pause run. -/
theorem openCount_le_one_of_disciplined_witness :
    openCount (applyOps exSession [Op.pause 10, Op.resume 20, Op.pause 30]) ≤ 1 :=
  openCount_le_one_of_disciplined exSession [Op.pause 10, Op.resume 20, Op.pause 30]
    (by decide) (by decide)

theorem calculate_offset_some (s : Session) (st t : Int) (h : s.start_time = some st) :
    calculate_offset s t = max 0 ((t - st) - (s.pause_intervals.map (pauseLen t)).sum) := by
  simp [calculate_offset, h, foldl_paused_eq_sum]

theorem sum_pauseLen_sub (t₁ t₂ : Int) (l : List PauseInterval) :
    (l.map (pauseLen t₂)).sum - (l.map (pauseLen t₁)).sum
      = ((l.filter fun p => p.«end».isNone).length : Int) * (t₂ - t₁) := by
  induction l with
  | nil => simp
  | cons p rest ih =>
      cases h : p.«end» with
      | none =>
          have hfilter : ((p :: rest).filter fun q => q.«end».isNone)
              = p :: (rest.filter fun q => q.«end».isNone) := by
            simp [List.filter_cons, h]
          rw [List.map_cons, List.map_cons, List.sum_cons, List.sum_cons, hfilter,
            List.length_cons]
          have hp : pauseLen t₁ p = t₁ - p.start := by simp [pauseLen, h]
          have hp' : pauseLen t₂ p = t₂ - p.start := by simp [pauseLen, h]
          rw [hp, hp']
          push_cast
          linarith [ih]
      | some e =>
          have hfilter : ((p :: rest).filter fun q => q.«end».isNone)
              = rest.filter fun q => q.«end».isNone := by
            simp [List.filter_cons, h]
          rw [List.map_cons, List.map_cons, List.sum_cons, List.sum_cons, hfilter]
          have hp : pauseLen t₁ p = e - p.start := by simp [pauseLen, h]
          have hp' : pauseLen t₂ p = e - p.start := by simp [pauseLen, h]
          rw [hp, hp']
          linarith [ih]

/-- C6: while no pause interval is open, `calculate_offset` is
non-decreasing in time; while one interval is open, it is constant —
in particular at any two instants inside the open interval. -/
theorem calculate_offset_monotone (s : Session) :
    (∀ t₁ t₂ : Int, t₁ ≤ t₂ → openCount s = 0 →
        calculate_offset s t₁ ≤ calculate_offset s t₂)
    ∧ (∀ t₁ t₂ : Int, ∀ o ∈ s.pause_intervals, o.«end» = none → openCount s = 1 →
        o.start ≤ t₁ → o.start ≤ t₂ → calculate_offset s t₁ = calculate_offset s t₂) := by
  constructor
  · intro t₁ t₂ hle hopen
    cases hst : s.start_time with
    | none => simp [calculate_offset, hst]
    | some st =>
        rw [calculate_offset_some s st t₁ hst, calculate_offset_some s st t₂ hst]
        have hsub := sum_pauseLen_sub t₁ t₂ s.pause_intervals
        rw [show (s.pause_intervals.filter fun p => p.«end».isNone).length = openCount s
          from rfl, hopen] at hsub
        refine max_le_max le_rfl ?_
        omega
  · intro t₁ t₂ o _ _ hopen _ _
    cases hst : s.start_time with
    | none => simp [calculate_offset, hst]
    | some st =>
        rw [calculate_offset_some s st t₁ hst, calculate_offset_some s st t₂ hst]
        have hsub := sum_pauseLen_sub t₁ t₂ s.pause_intervals
        rw [show (s.pause_intervals.filter fun p => p.«end».isNone).length = openCount s
          from rfl, hopen] at hsub
        congr 1
        omega

/-- Witness for `calculate_offset_monotone`: a pause-free concrete session
is non-decreasing, and a session with one open interval is frozen. -/
theorem calculate_offset_monotone_witness :
    calculate_offset exSession 1 ≤ calculate_offset exSession 2
    ∧ calculate_offset exPausedSession 2000 = calculate_offset exPausedSession 3000 :=
  ⟨(calculate_offset_monotone exSession).1 1 2 (by decide) (by decide),
   (calculate_offset_monotone exPausedSession).2 2000 3000 (PauseInterval.mk 1000 none)
     (by decide) rfl (by decide) (by decide) (by decide)⟩

/-- C3: `_schedule_next_pause` arms nothing while the session is paused;
otherwise, with `elapsed` the current unpaused offset,
`k = ⌊elapsed / 1h⌋ + 1` and `target = k·1h`, it arms a pause — with delay
`max 0 (target − elapsed)` (milliseconds; the source sleeps this over
1000 seconds) — unconditionally when `k = 1` and otherwise exactly when
`duration_ms − target > 30min`.  In particular a session of duration
exactly 3 600 000 ms at elapsed 0 gets its `k = 1` pause armed even
though the 30-minute-remaining rule alone would block it. -/
theorem schedule_next_pause_rules (s : Session) (t : Int) :
    (isPausedNow s = true → schedule_next_pause s t = none)
    ∧ (isPausedNow s = false →
        schedule_next_pause s t =
          (if calculate_offset s t / HOUR_MS + 1 = 1
              ∨ s.duration_ms - (calculate_offset s t / HOUR_MS + 1) * HOUR_MS > THIRTY_MIN_MS
           then some (max 0 ((calculate_offset s t / HOUR_MS + 1) * HOUR_MS
              - calculate_offset s t))
           else none))
    ∧ (s.duration_ms = 3600000 → s.start_time = some t → s.pause_intervals = [] →
        schedule_next_pause s t = some 3600000
          ∧ ¬ (s.duration_ms - (calculate_offset s t / HOUR_MS + 1) * HOUR_MS
              > THIRTY_MIN_MS)) := by
  refine ⟨fun h => ?_, fun h => ?_, fun hdur hst hint => ?_⟩
  · simp [schedule_next_pause, h]
  · rw [schedule_next_pause, if_neg (by simp [h])]
    by_cases hk : calculate_offset s t / HOUR_MS + 1 = 1
    · simp [hk]
    · by_cases hc : s.duration_ms - (calculate_offset s t / HOUR_MS + 1) * HOUR_MS
          > THIRTY_MIN_MS
      · simp [hk, hc]
      · simp [hk, hc]
  · have hoff : calculate_offset s t = 0 := by
      simp [calculate_offset, hst, hint]
    have hpause : isPausedNow s = false := by
      simp [isPausedNow, hint]
    constructor
    · rw [schedule_next_pause, if_neg (by simp [hpause])]
      rw [hoff]
      norm_num [HOUR_MS]
    · rw [hoff, hdur]
      norm_num [HOUR_MS, THIRTY_MIN_MS]

/-- Witness for `schedule_next_pause_rules`: a paused concrete session
arms nothing; the exactly-one-hour concrete session still gets its
`k = 1` pause. -/
theorem schedule_next_pause_rules_witness :
    schedule_next_pause exPausedSession 0 = none
    ∧ schedule_next_pause exSession 0 = some 3600000 :=
  ⟨(schedule_next_pause_rules exPausedSession 0).1 rfl,
   ((schedule_next_pause_rules exSession 0).2.2 rfl rfl rfl).1⟩

theorem status_step_skip (user filename : String) (offset receive_time t threshold_ms : Int)
    (acc : Option Int × List (String × WSCommand)) (s' : Session)
    (h : ¬ (s'.filename = filename ∧ (lookupP user s'.participants).isSome)) :
    status_step user filename offset receive_time t threshold_ms acc s' = acc := by
  by_cases h1 : s'.filename = filename
  · have h2 : (lookupP user s'.participants).isNone := by
      cases hl : lookupP user s'.participants with
      | none => rfl
      | some p => exact absurd ⟨h1, by rw [hl]; rfl⟩ h
    simp [status_step, h1, h2]
  · simp [status_step, h1]

theorem status_foldl_skip (user filename : String) (offset receive_time t threshold_ms : Int)
    (l : List Session) (acc : Option Int × List (String × WSCommand))
    (h : ∀ s' ∈ l, ¬ (s'.filename = filename ∧ (lookupP user s'.participants).isSome)) :
    l.foldl (status_step user filename offset receive_time t threshold_ms) acc = acc := by
  induction l generalizing acc with
  | nil => rfl
  | cons s' rest ih =>
      rw [List.foldl_cons,
        status_step_skip user filename offset receive_time t threshold_ms acc s'
          (h s' (List.mem_cons_self s' rest))]
      exact ih acc (fun x hx => h x (List.mem_cons_of_mem s' hx))

/-- C2: for a status report `(user, filename, offset, receive_time)`
handled at time `t`, when exactly one session in the snapshot matches the
filename with `user` among its participants, the handler returns
`adjusted = offset + (t − receive_time)`; it sends nothing when
`|adjusted − server_offset| ≤ threshold_ms`, and exactly one SEEK carrying
the server's offset — addressed to the reporting participant only — when
the threshold is exceeded. -/
theorem handle_client_status_update_spec
    (pre post : List Session) (s : Session) (user filename : String)
    (offset receive_time t threshold_ms : Int) (p : Participant)
    (hpre : ∀ s' ∈ pre, ¬ (s'.filename = filename ∧ (lookupP user s'.participants).isSome))
    (hpost : ∀ s' ∈ post, ¬ (s'.filename = filename ∧ (lookupP user s'.participants).isSome))
    (hfile : s.filename = filename)
    (hp : lookupP user s.participants = some p) :
    handle_client_status_update (pre ++ s :: post) (some user) filename offset receive_time t
        threshold_ms =
      (some (offset + (t - receive_time)),
        if |offset + (t - receive_time) - calculate_offset s t| > threshold_ms then
          [(user, WSCommand.mk CommandType.SEEK (some (calculate_offset s t)) s.filename
              p.device)]
        else []) := by
  rw [handle_client_status_update, List.foldl_append,
    status_foldl_skip user filename offset receive_time t threshold_ms pre _ hpre,
    List.foldl_cons]
  have hstep : status_step user filename offset receive_time t threshold_ms (none, []) s =
      (some (offset + (t - receive_time)),
        if |offset + (t - receive_time) - calculate_offset s t| > threshold_ms then
          [(user, WSCommand.mk CommandType.SEEK (some (calculate_offset s t)) s.filename
              p.device)]
        else []) := by
    rw [status_step, if_neg (by simp [hfile])]
    rw [if_neg (by simp [hp])]
    simp only [hp]
    by_cases habs : |offset + (t - receive_time) - calculate_offset s t| > threshold_ms
    · simp [habs]
    · simp [habs]
  rw [hstep]
  exact status_foldl_skip user filename offset receive_time t threshold_ms post _ hpost

/-- Witness for `handle_client_status_update_spec`: a small in-threshold
report produces no SEEK; a large one produces exactly one SEEK at the
server's offset. -/
theorem handle_client_status_update_spec_witness :
    handle_client_status_update [exSession] (some "alice") "movie.mkv" 9500 9000 10000 5000
      = (some 10500, [])
    ∧ handle_client_status_update [exSession] (some "alice") "movie.mkv" 100 9000 10000 5000
      = (some 1100, [("alice", WSCommand.mk CommandType.SEEK (some 10000) "movie.mkv"
          exDevice)]) :=
  ⟨Eq.trans (handle_client_status_update_spec [] [] exSession "alice" "movie.mkv"
      9500 9000 10000 5000 exParticipant (by simp) (by simp) rfl rfl) (by decide),
   Eq.trans (handle_client_status_update_spec [] [] exSession "alice" "movie.mkv"
      100 9000 10000 5000 exParticipant (by simp) (by simp) rfl rfl) (by decide)⟩

theorem updateSession_self (sid : String) (s : Session) (l : List (String × Session))
    (h : lookupSession sid l = some s) : updateSession sid s l = l := by
  induction l with
  | nil => rfl
  | cons kv rest ih =>
      obtain ⟨k, v⟩ := kv
      rw [lookupSession] at h
      rw [updateSession]
      by_cases hk : k = sid
      · rw [if_pos hk] at h
        rw [if_pos hk]
        obtain rfl : v = s := by injection h
        rw [hk]
      · rw [if_neg hk] at h
        rw [if_neg hk, ih h]

theorem map_fst_filter_contains (q : List String) (l : List (String × Participant)) :
    ((l.filter fun up => q.contains up.1).map Prod.fst)
      = (l.map Prod.fst).filter (fun u => q.contains u) := by
  induction l with
  | nil => rfl
  | cons up rest ih =>
      by_cases hq : up.1 ∈ q
      · simp [List.filter_cons, hq]
        simpa using ih
      · simp [List.filter_cons, hq]
        simpa using ih

/-- C4: registry-level `start_session` fails `NotFound` for an unknown id,
fails `InvalidState` while the scheduled start is still in the future, is
a command-free no-op on an already-started session, and on success sets
`start_time := t`, clears the prequeue, and sends exactly one PLAY with
offset 0 to each previously-prequeued participant. -/
theorem orch_start_session_spec :
    (∀ (sessions : List (String × Session)) (sid : String) (t : Int),
        lookupSession sid sessions = none →
        orch_start_session sessions sid t = Except.error OrchError.NotFound)
    ∧ (∀ (sessions : List (String × Session)) (sid : String) (s : Session) (t : Int),
        lookupSession sid sessions = some s →
        s.start_time = none → s.scheduled_start_time > t →
        orch_start_session sessions sid t = Except.error OrchError.InvalidState)
    ∧ (∀ (sessions : List (String × Session)) (sid : String) (s : Session) (t : Int),
        lookupSession sid sessions = some s → s.start_time.isSome →
        orch_start_session sessions sid t = Except.ok (sessions, []))
    ∧ (∀ (sessions : List (String × Session)) (sid : String) (s : Session) (t : Int),
        lookupSession sid sessions = some s →
        s.start_time = none → ¬ (s.scheduled_start_time > t) →
        (s.participants.map Prod.fst).Nodup →
        (∀ u ∈ s.prequeue, u ∈ s.participants.map Prod.fst) →
        ∃ cmds,
          orch_start_session sessions sid t =
            Except.ok
              (updateSession sid { s with start_time := some t, prequeue := [] } sessions,
                cmds)
          ∧ (∀ uc ∈ cmds, uc.2.type = CommandType.PLAY ∧ uc.2.offset = some 0
              ∧ uc.1 ∈ s.prequeue)
          ∧ (∀ u ∈ s.prequeue, (cmds.map Prod.fst).count u = 1)) := by
  refine ⟨fun sessions sid t h => ?_, fun sessions sid s t h hst hfut => ?_,
    fun sessions sid s t h hsome => ?_, fun sessions sid s t h hst hpast hnodup hsub => ?_⟩
  · simp [orch_start_session, h]
  · have hns : s.start_time.isSome = false := by rw [hst]; rfl
    simp [orch_start_session, h, start_session, hns, hfut]
  · have hstart : start_session s t = Except.ok (s, []) := by
      simp [start_session, hsome]
    simp [orch_start_session, h, hstart, updateSession_self sid s sessions h]
  · have hns : s.start_time.isSome = false := by rw [hst]; rfl
    refine ⟨(s.participants.filter fun up => s.prequeue.contains up.1).map
      fun up => (up.1, WSCommand.mk CommandType.PLAY (some 0) s.filename up.2.device),
      ?_, ?_, ?_⟩
    · have hstart : start_session s t =
          Except.ok ({ s with start_time := some t, prequeue := [] },
            (s.participants.filter fun up => s.prequeue.contains up.1).map
              fun up => (up.1, WSCommand.mk CommandType.PLAY (some 0) s.filename
                up.2.device)) := by
        rw [start_session, if_neg (by rw [hns]; simp), if_neg hpast]
      simp [orch_start_session, h, hstart]
    · intro uc huc
      obtain ⟨up, hup, rfl⟩ := List.mem_map.mp huc
      refine ⟨rfl, rfl, ?_⟩
      have := (List.mem_filter.mp hup).2
      simpa using this
    · intro u hu
      rw [List.map_map]
      have hmapf : (s.participants.filter fun up => s.prequeue.contains up.1).map
          (Prod.fst ∘ fun up =>
            (up.1, WSCommand.mk CommandType.PLAY (some 0) s.filename up.2.device))
          = (s.participants.filter fun up => s.prequeue.contains up.1).map Prod.fst := by
        exact List.map_congr_left fun up _ => rfl
      rw [hmapf, map_fst_filter_contains]
      refine List.count_eq_one_of_mem (hnodup.filter _) ?_
      refine List.mem_filter.mpr ⟨hsub u hu, ?_⟩
      simpa using hu

/-- Witness for `orch_start_session_spec`: an unknown id fails `NotFound`,
and starting a concrete scheduled session flushes its prequeue with one
offset-0 PLAY for the queued participant. -/
theorem orch_start_session_spec_witness :
    orch_start_session [] "nope" 0 = Except.error OrchError.NotFound
    ∧ ∃ cmds,
        orch_start_session [("sid-1", exNotStarted)] "sid-1" 5 =
          Except.ok (updateSession "sid-1"
            { exNotStarted with start_time := some 5, prequeue := [] }
            [("sid-1", exNotStarted)], cmds)
        ∧ (∀ uc ∈ cmds, uc.2.type = CommandType.PLAY ∧ uc.2.offset = some 0
            ∧ uc.1 ∈ exNotStarted.prequeue)
        ∧ (∀ u ∈ exNotStarted.prequeue, (cmds.map Prod.fst).count u = 1) :=
  ⟨orch_start_session_spec.1 [] "nope" 0 rfl,
   orch_start_session_spec.2.2.2 [("sid-1", exNotStarted)] "sid-1" exNotStarted 5 rfl rfl
     (by decide) (by decide) (by decide)⟩

/-- C7: `add_participant` fails `NotAuthorized` when no authorized device
matches the requested name by title (mutating nothing — the error is
raised before any write); otherwise it stores/overwrites the participant,
and either idempotently appends the username to the prequeue with no
command sent (session not started) or sends exactly one single-recipient
PLAY carrying the current computed offset (session started). -/
theorem add_participant_spec :
    (∀ (s : Session) (u c : String) (clients : List Device) (t : Int),
        (∀ d ∈ clients, d.title ≠ c) →
        add_participant s u c clients t = Except.error OrchError.NotAuthorized)
    ∧ (∀ (s : Session) (u c : String) (clients : List Device) (t : Int) (d : Device),
        clients.find? (fun dev => dev.title == c) = some d → s.start_time = none →
        add_participant s u c clients t =
          Except.ok
            ({ s with
                participants :=
                  insertP u { username := u, device := d, join_time := t, offset := 0 }
                    s.participants,
                prequeue :=
                  if s.prequeue.contains u then s.prequeue else s.prequeue ++ [u] }, [])
        ∧ (s.prequeue.count u ≤ 1 →
            (if s.prequeue.contains u then s.prequeue else s.prequeue ++ [u]).count u = 1))
    ∧ (∀ (s : Session) (u c : String) (clients : List Device) (t : Int) (d : Device)
        (st : Int),
        clients.find? (fun dev => dev.title == c) = some d → s.start_time = some st →
        add_participant s u c clients t =
          Except.ok
            ({ s with
                participants :=
                  insertP u { username := u, device := d, join_time := t, offset := 0 }
                    s.participants },
              [(u, WSCommand.mk CommandType.PLAY (some (calculate_offset s t)) s.filename
                d)])) := by
  refine ⟨fun s u c clients t h => ?_, fun s u c clients t d hf hst => ⟨?_, ?_⟩,
    fun s u c clients t d st hf hst => ?_⟩
  · have hfind : clients.find? (fun dev => dev.title == c) = none := by
      rw [List.find?_eq_none]
      intro x hx
      simpa using h x hx
    simp [add_participant, hfind]
  · by_cases hq : u ∈ s.prequeue
    · simp [add_participant, hf, hst, hq]
    · simp [add_participant, hf, hst, hq]
  · intro hcount
    by_cases hq : u ∈ s.prequeue
    · have hpos : 0 < s.prequeue.count u := List.count_pos_iff.mpr hq
      simp [hq]
      omega
    · have hzero : s.prequeue.count u = 0 := List.count_eq_zero.mpr hq
      simp [hq, List.count_append, hzero]
  · simp [add_participant, hf, hst]
    simp [calculate_offset, hst]

/-- Witness for `add_participant_spec`: an unmatched device name fails
`NotAuthorized`; joining a started concrete session sends one catch-up
PLAY at the current offset. -/
theorem add_participant_spec_witness :
    add_participant exSession "bob" "nope" [] 3 = Except.error OrchError.NotAuthorized
    ∧ add_participant exSession "bob" "TV" [exDevice] 3 =
        Except.ok
          ({ exSession with
              participants :=
                insertP "bob"
                  { username := "bob", device := exDevice, join_time := 3, offset := 0 }
                  exSession.participants },
            [("bob", WSCommand.mk CommandType.PLAY (some (calculate_offset exSession 3))
              exSession.filename exDevice)]) :=
  ⟨add_participant_spec.1 exSession "bob" "nope" [] 3 (by simp),
   add_participant_spec.2.2 exSession "bob" "TV" [exDevice] 3 exDevice 0 (by decide) rfl⟩

theorem normalize_step_eq (acc : List Device) (c : RawClient) :
    normalize_step acc c = acc ++ (specKeepClient c).toList := by
  cases c with
  | other => simp [normalize_step, specKeepClient]
  | device d =>
      by_cases ht : d.title = ""
      · simp [normalize_step, specKeepClient, ht]
      · by_cases hi : d.id = ""
        · simp [normalize_step, specKeepClient, ht, hi]
        · simp [normalize_step, specKeepClient, ht, hi]
  | dict entries =>
      cases ht : dictGet entries "title" with
      | noneV => simp [normalize_step, specKeepClient, PyVal.truthy, ht]
      | int n =>
          cases hi : dictGet entries "id" <;>
            by_cases hn : n = 0 <;>
              simp [normalize_step, specKeepClient, PyVal.truthy, model_validate_device,
                ht, hi, hn]
      | str a =>
          cases hi : dictGet entries "id" with
          | noneV =>
              simp [normalize_step, specKeepClient, PyVal.truthy, model_validate_device,
                ht, hi]
          | int m =>
              by_cases hm : m = 0 <;>
                by_cases ha : a = "" <;>
                  simp [normalize_step, specKeepClient, PyVal.truthy,
                    model_validate_device, ht, hi, hm, ha]
          | str b =>
              by_cases ha : a = "" <;>
                by_cases hb : b = "" <;>
                  simp [normalize_step, specKeepClient, PyVal.truthy,
                    model_validate_device, ht, hi, ha, hb]

theorem foldl_normalize_step (clients : List RawClient) (acc : List Device) :
    clients.foldl normalize_step acc = acc ++ clients.filterMap specKeepClient := by
  induction clients generalizing acc with
  | nil => simp
  | cons c rest ih =>
      rw [List.foldl_cons, ih, normalize_step_eq]
      cases hc : specKeepClient c with
      | none => simp [List.filterMap_cons, hc]
      | some d => simp [List.filterMap_cons, hc]

/-- C9: `set_authorized_clients` stores exactly the entries carrying both
a non-empty title and a non-empty id as `Device` values (`specKeepClient`
is that filter, written from the spec's words); every malformed,
incomplete, or non-`Device`/non-dict entry is dropped silently — the
function is total and never fails. -/
theorem set_authorized_clients_spec (clients : List RawClient) :
    set_authorized_clients clients = clients.filterMap specKeepClient := by
  rw [set_authorized_clients, foldl_normalize_step]
  rfl

/-- C2 counterexample: the handler loops over every session whose filename
matches and in which the user participates, so two sessions sharing a
filename with the same participant yield two SEEKs for one report —
"exactly one SEEK" fails as a universal statement (though both go to the
reporting participant only). -/
theorem two_matching_sessions_two_seeks :
    ((handle_client_status_update [exSession, { exSession with session_id := "sid-2" }]
        (some "alice") "movie.mkv" 999999 0 0 5000).2.map
      (fun uc => (uc.1, uc.2.type)))
      = [("alice", CommandType.SEEK), ("alice", CommandType.SEEK)] := by decide
